import Mathlib

/-!
# Verification of ImpactX beamline element transfer maps

Shallow embedding of the per-particle and reference-particle transfer maps of
the ImpactX accelerator tracking code (elements Aperture, Kicker, DipEdge,
ShortRF, CFbend, ExactSbend), together with theorems settling the frozen
claims about them.

Real-valued particle code is embedded over `ℝ` (exact real arithmetic);
the Aperture element, whose map uses only field operations and comparisons,
is embedded over `ℚ` so that its predicates are decidable.
Fallible square roots (whose argument the source does not validate) are
embedded through an `Option`-valued checked square root.
-/

/-! ## Aperture (src/src/particles/elements/Aperture.H)

The per-particle map reads the positions `x`, `y` and the id, scales by the
half-apertures, compares against the rectangular or elliptical boundary, and
on violation negates the id in place.  Momenta and positions are untouched.
-/

/-- Aperture shape, from `Aperture::Shape`. -/
inductive ApertureShape
  | rectangular
  | elliptical
deriving DecidableEq

/-- A macro-particle record as seen by the Aperture map: AoS positions
`x`, `y`, `t`, the signed id, and the SoA momenta `px`, `py`, `pt`.
Embedded over `ℚ` (the map uses only field operations and comparisons). -/
structure AParticle where
  x : ℚ
  y : ℚ
  t : ℚ
  pid : ℤ
  px : ℚ
  py : ℚ
  pt : ℚ
deriving DecidableEq

/-- `Aperture::operator()` from Aperture.H: scale the transverse coordinates
by the half-apertures and negate the id when the boundary test fires. -/
def Aperture.pmap (xmax ymax : ℚ) (shape : ApertureShape) (p : AParticle) : AParticle :=
  let u := p.x / xmax
  let v := p.y / ymax
  match shape with
  | .rectangular =>
      if u ^ 2 > 1 ∨ v ^ 2 > 1 then { p with pid := -p.pid } else p
  | .elliptical =>
      if u ^ 2 + v ^ 2 > 1 then { p with pid := -p.pid } else p

/-- The boundary-violation condition tested by `Aperture::operator()`,
per shape, exactly as written in the source. -/
def Aperture.violates (xmax ymax : ℚ) (shape : ApertureShape) (x y : ℚ) : Prop :=
  match shape with
  | .rectangular => (x / xmax) ^ 2 > 1 ∨ (y / ymax) ^ 2 > 1
  | .elliptical => (x / xmax) ^ 2 + (y / ymax) ^ 2 > 1

instance (xmax ymax : ℚ) (shape : ApertureShape) (x y : ℚ) :
    Decidable (Aperture.violates xmax ymax shape x y) := by
  unfold Aperture.violates
  cases shape <;> infer_instance

/-- The map marks the particle lost (negates the id) exactly on violation. -/
theorem Aperture.pmap_pid (xmax ymax : ℚ) (shape : ApertureShape) (p : AParticle) :
    (Aperture.pmap xmax ymax shape p).pid =
      (if Aperture.violates xmax ymax shape p.x p.y then -p.pid else p.pid) := by
  cases shape <;> simp only [Aperture.pmap, Aperture.violates] <;> split_ifs <;> rfl

/-- The map never changes positions or momenta. -/
theorem Aperture.pmap_frame (xmax ymax : ℚ) (shape : ApertureShape) (p : AParticle) :
    (Aperture.pmap xmax ymax shape p).x = p.x ∧
    (Aperture.pmap xmax ymax shape p).y = p.y ∧
    (Aperture.pmap xmax ymax shape p).t = p.t ∧
    (Aperture.pmap xmax ymax shape p).px = p.px ∧
    (Aperture.pmap xmax ymax shape p).py = p.py ∧
    (Aperture.pmap xmax ymax shape p).pt = p.pt := by
  cases shape <;> simp only [Aperture.pmap] <;> split_ifs <;> exact ⟨rfl, rfl, rfl, rfl, rfl, rfl⟩

/-- C2: with positive half-widths, a particle exactly on the unit-normalized
boundary (u² = 1 with v² ≤ 1 for the rectangle, u² + v² = 1 for the ellipse)
is not marked lost; a particle with u² + v² = 1.01 under the elliptical shape
is marked lost with its id sign flipped and magnitude preserved; and a
particle with |u| = 1.2, |v| = 0 under the rectangular shape is marked lost. -/
theorem aperture_boundary_semantics (xmax ymax : ℚ) (p : AParticle)
    (hx : 0 < xmax) (hy : 0 < ymax) :
    ((p.x / xmax) ^ 2 = 1 → (p.y / ymax) ^ 2 ≤ 1 →
        (Aperture.pmap xmax ymax .rectangular p).pid = p.pid) ∧
    ((p.x / xmax) ^ 2 + (p.y / ymax) ^ 2 = 1 →
        (Aperture.pmap xmax ymax .elliptical p).pid = p.pid) ∧
    ((p.x / xmax) ^ 2 + (p.y / ymax) ^ 2 = 1.01 →
        (Aperture.pmap xmax ymax .elliptical p).pid = -p.pid ∧
        (Aperture.pmap xmax ymax .elliptical p).pid.natAbs = p.pid.natAbs) ∧
    (|p.x / xmax| = 1.2 → |p.y / ymax| = 0 →
        (Aperture.pmap xmax ymax .rectangular p).pid = -p.pid) := by
  refine ⟨?_, ?_, ?_, ?_⟩
  · intro hu hv
    simp only [Aperture.pmap]
    rw [if_neg]
    push_neg
    exact ⟨le_of_eq hu, hv⟩
  · intro huv
    simp only [Aperture.pmap]
    rw [if_neg]
    exact not_lt.mpr (le_of_eq huv)
  · intro huv
    simp only [Aperture.pmap]
    rw [if_pos (by rw [huv]; norm_num)]
    exact ⟨rfl, Int.natAbs_neg p.pid⟩
  · intro hu hv
    simp only [Aperture.pmap]
    rw [if_pos]
    left
    rw [← sq_abs, hu]
    norm_num

/-- Witness for C2: concrete boundary, interior-violating and
rectangle-violating particles through a unit aperture. -/
theorem aperture_boundary_semantics_witness :
    (0 : ℚ) < 1 ∧
    ((Aperture.pmap 1 1 .rectangular ⟨1, 0, 0, 5, 0, 0, 0⟩).pid = 5 ∧
     (Aperture.pmap 1 1 .elliptical ⟨1, 0, 0, 5, 0, 0, 0⟩).pid = 5 ∧
     (Aperture.pmap 1 1 .elliptical ⟨1, 1/10, 0, 5, 0, 0, 0⟩).pid = -5 ∧
     (Aperture.pmap 1 1 .rectangular ⟨6/5, 0, 0, 5, 0, 0, 0⟩).pid = -5) := by
  refine ⟨by norm_num, ?_, ?_, ?_, ?_⟩
  · exact (aperture_boundary_semantics 1 1 ⟨1, 0, 0, 5, 0, 0, 0⟩ (by norm_num)
      (by norm_num)).1 (by norm_num) (by norm_num)
  · exact (aperture_boundary_semantics 1 1 ⟨1, 0, 0, 5, 0, 0, 0⟩ (by norm_num)
      (by norm_num)).2.1 (by norm_num)
  · exact ((aperture_boundary_semantics 1 1 ⟨1, 1/10, 0, 5, 0, 0, 0⟩ (by norm_num)
      (by norm_num)).2.2.1 (by norm_num)).1
  · exact (aperture_boundary_semantics 1 1 ⟨6/5, 0, 0, 5, 0, 0, 0⟩ (by norm_num)
      (by norm_num)).2.2.2 (by norm_num) (by norm_num)

/-- C9: the Aperture map changes nothing except possibly the sign of the id:
positions and momenta are unchanged, the id keeps its absolute value and is
either kept or negated in place, and the particle record survives the map. -/
theorem aperture_frame_effect (xmax ymax : ℚ) (shape : ApertureShape) (p : AParticle) :
    (Aperture.pmap xmax ymax shape p).x = p.x ∧
    (Aperture.pmap xmax ymax shape p).y = p.y ∧
    (Aperture.pmap xmax ymax shape p).t = p.t ∧
    (Aperture.pmap xmax ymax shape p).px = p.px ∧
    (Aperture.pmap xmax ymax shape p).py = p.py ∧
    (Aperture.pmap xmax ymax shape p).pt = p.pt ∧
    (Aperture.pmap xmax ymax shape p).pid.natAbs = p.pid.natAbs ∧
    ((Aperture.pmap xmax ymax shape p).pid = p.pid ∨
     (Aperture.pmap xmax ymax shape p).pid = -p.pid) := by
  cases shape <;> simp only [Aperture.pmap] <;> split_ifs <;>
    simp [Int.natAbs_neg]

/-- C10: loss-marking is an involution: the violation test depends only on the
unchanged positions, and the id is negated unconditionally on violation, so on
a violating particle two applications restore the original id, and a second
application to an already-marked-lost (negative id), still-out-of-bounds
particle flips its id back to positive. -/
theorem aperture_double_application (xmax ymax : ℚ) (shape : ApertureShape) (p : AParticle)
    (hv : Aperture.violates xmax ymax shape p.x p.y) :
    (Aperture.pmap xmax ymax shape p).pid = -p.pid ∧
    (Aperture.pmap xmax ymax shape (Aperture.pmap xmax ymax shape p)).pid = p.pid ∧
    (p.pid < 0 → 0 < (Aperture.pmap xmax ymax shape p).pid) := by
  have hfix : (Aperture.pmap xmax ymax shape p).x = p.x ∧
      (Aperture.pmap xmax ymax shape p).y = p.y := by
    cases shape <;> simp only [Aperture.pmap] <;> split_ifs <;> exact ⟨rfl, rfl⟩
  have h1 : (Aperture.pmap xmax ymax shape p).pid = -p.pid := by
    rw [Aperture.pmap_pid, if_pos hv]
  have h2 : (Aperture.pmap xmax ymax shape (Aperture.pmap xmax ymax shape p)).pid = p.pid := by
    rw [Aperture.pmap_pid, hfix.1, hfix.2, if_pos hv, h1, neg_neg]
  exact ⟨h1, h2, fun hneg => h1 ▸ Int.neg_pos_of_neg hneg⟩

/-- Witness for C10: a particle at x = 2 in a unit rectangular aperture,
already marked lost (id = −7), is flipped back to id = 7 live. -/
theorem aperture_double_application_witness :
    Aperture.violates 1 1 .rectangular 2 0 ∧
    (Aperture.pmap 1 1 .rectangular ⟨2, 0, 0, -7, 0, 0, 0⟩).pid = 7 ∧
    (Aperture.pmap 1 1 .rectangular
       (Aperture.pmap 1 1 .rectangular ⟨2, 0, 0, -7, 0, 0, 0⟩)).pid = -7 ∧
    (0 : ℤ) < (Aperture.pmap 1 1 .rectangular ⟨2, 0, 0, -7, 0, 0, 0⟩).pid := by
  have hv : Aperture.violates 1 1 .rectangular (2 : ℚ) 0 := by
    unfold Aperture.violates; norm_num
  have h := aperture_double_application 1 1 .rectangular ⟨2, 0, 0, -7, 0, 0, 0⟩ hv
  exact ⟨hv, by rw [h.1]; rfl, by rw [h.2.1], h.2.2 (by norm_num)⟩

/-! ## Data model over `ℝ`

The reference particle (spec §3) stores position `(x, y, z, t)`, momentum
`(px, py, pz, pt)`, integrated path length `s`, rest mass, charge and the
reference momentum magnitude.  Its derived accessors are pure functions of
the stored state.
-/

/-- The reference particle state, from the spec data model §3 (the source
header ReferenceParticle.H is not under src/). -/
structure RefPart where
  x : ℝ
  y : ℝ
  z : ℝ
  t : ℝ
  px : ℝ
  py : ℝ
  pz : ℝ
  pt : ℝ
  s : ℝ
  mass : ℝ
  charge : ℝ
  pm : ℝ

/-- Modelled from the spec: the derived accessor `beta()` of
ReferenceParticle.H (not under src/), the relativistic β as a pure function
of the stored energy variable, consistent with the in-source computation
`bet = sqrt(betgam2/(1 + betgam2))` with `betgam2 = pt^2 - 1` in CFbend. -/
noncomputable def RefPart.beta (r : RefPart) : ℝ :=
  Real.sqrt ((r.pt ^ 2 - 1) / (1 + (r.pt ^ 2 - 1)))

/-- Modelled from the spec: the derived accessor `beta_gamma()` of
ReferenceParticle.H (not under src/), βγ as a pure function of the stored
energy variable, consistent with `betgam2 = pt^2 - 1` in the CFbend source. -/
noncomputable def RefPart.beta_gamma (r : RefPart) : ℝ :=
  Real.sqrt (r.pt ^ 2 - 1)

/-- Modelled from the spec: the derived accessor `rigidity_Tm()` of
ReferenceParticle.H (not under src/), the magnetic rigidity
(reference momentum magnitude divided by charge). -/
noncomputable def RefPart.rigidity_Tm (r : RefPart) : ℝ :=
  r.pm / r.charge

/-- The per-particle phase-space state used by the non-Aperture maps:
AoS positions `x`, `y`, `t` and SoA momenta `px`, `py`, `pt`. -/
structure PPart where
  x : ℝ
  y : ℝ
  t : ℝ
  px : ℝ
  py : ℝ
  pt : ℝ

/-- Checked square root: the C++ sources call `sqrt` with no validation of
the argument; in this total embedding a negative argument is an error value
(`none`) rather than a silently propagated non-finite number. -/
noncomputable def checkedSqrt (a : ℝ) : Option ℝ :=
  if 0 ≤ a then some (Real.sqrt a) else none

/-! ## Kicker (src/src/particles/elements/Kicker.H) -/

/-- `Kicker::UnitSystem`: kick strengths are dimensionless or in T-m. -/
inductive KickerUnit
  | dimensionless
  | Tm
deriving DecidableEq

/-- `Kicker::operator()` from Kicker.H: positions are unchanged, `px` and
`py` receive the constant kick (divided by the reference rigidity when the
unit system is T-m), `pt` is unchanged. -/
noncomputable def Kicker.pmap (xkick ykick : ℝ) (unit : KickerUnit)
    (refpart : RefPart) (q : PPart) : PPart :=
  let dpx := if unit = KickerUnit.Tm then xkick / refpart.rigidity_Tm else xkick
  let dpy := if unit = KickerUnit.Tm then ykick / refpart.rigidity_Tm else ykick
  { x := q.x
    y := q.y
    t := q.t
    px := q.px + dpx
    py := q.py + dpy
    pt := q.pt }

/-- C6: a zero-strength kicker (`xkick = ykick = 0`, in either unit system)
is the identity on every particle state: all three positions and all three
momenta are unchanged. -/
theorem kicker_zero_strength_identity (unit : KickerUnit) (refpart : RefPart) (q : PPart) :
    Kicker.pmap 0 0 unit refpart q = q := by
  cases q
  cases unit <;> simp [Kicker.pmap]

/-! ## DipEdge (src/src/particles/elements/DipEdge.H) -/

/-- `DipEdge::operator()` from DipEdge.H: the zero-gap matrix elements are
`R21 = tan(psi)/rc` and `R43 = -R21` plus the first-order fringe correction
`vf = (1 + sin²ψ)/cos³ψ · g·K2/rc²`; the kick is `px += R21·x`,
`py += R43·y`; positions and `pt` are untouched. -/
noncomputable def DipEdge.pmap (psi rc g K2 : ℝ) (q : PPart) : PPart :=
  let R21 := Real.tan psi / rc
  let vf := (1 + Real.sin psi ^ 2) / Real.cos psi ^ 3 * (g * K2 / rc ^ 2)
  let R43 := -R21 + vf
  { q with px := q.px + R21 * q.x, py := q.py + R43 * q.y }

/-- C7: with gap parameter g = 0 the fringe correction vanishes and the kick
is exactly the zero-gap matrix element formula: `px ← px + (tanψ/rc)·x` and
`py ← py − (tanψ/rc)·y`, for every particle and every pole-face angle and
bend radius with `cos ψ ≠ 0` and `rc ≠ 0`. -/
theorem dipedge_zero_gap (psi rc K2 : ℝ) (q : PPart)
    (hc : Real.cos psi ≠ 0) (hr : rc ≠ 0) :
    (DipEdge.pmap psi rc 0 K2 q).px = q.px + Real.tan psi / rc * q.x ∧
    (DipEdge.pmap psi rc 0 K2 q).py = q.py - Real.tan psi / rc * q.y := by
  constructor
  · rfl
  · show q.py + (-(Real.tan psi / rc) +
      (1 + Real.sin psi ^ 2) / Real.cos psi ^ 3 * (0 * K2 / rc ^ 2)) * q.y = _
    ring

/-- Witness for C7: pole-face angle 0 and unit bend radius satisfy
`cos ψ ≠ 0` and `rc ≠ 0`, and the zero-gap formula holds there. -/
theorem dipedge_zero_gap_witness :
    Real.cos 0 ≠ 0 ∧ (1 : ℝ) ≠ 0 ∧
    ((DipEdge.pmap 0 1 0 0 ⟨1, 2, 0, 0, 0, 0⟩).px = 0 + Real.tan 0 / 1 * 1 ∧
     (DipEdge.pmap 0 1 0 0 ⟨1, 2, 0, 0, 0, 0⟩).py = 0 - Real.tan 0 / 1 * 2) :=
  ⟨by rw [Real.cos_zero]; exact one_ne_zero, one_ne_zero,
   dipedge_zero_gap 0 1 0 ⟨1, 2, 0, 0, 0, 0⟩
     (by rw [Real.cos_zero]; exact one_ne_zero) one_ne_zero⟩

/-! ## ShortRF (src/src/particles/elements/ShortRF.H) -/

/-- `ShortRF::operator()(RefPart&)` from ShortRF.H: the reference map
converts the phase to radians, applies the on-crest energy kick
`pt ← pt − V·cos(φ)`, leaves the positions unchanged, and rescales the
spatial momenta by the ratio of final to initial βγ. -/
noncomputable def ShortRF.refmap (V freq phase : ℝ) (r : RefPart) : RefPart :=
  let phi := phase * (Real.pi / 180)
  let bgi := Real.sqrt (r.pt ^ 2 - 1)
  let ptf := r.pt - V * Real.cos phi
  let bgf := Real.sqrt (ptf ^ 2 - 1)
  { r with
    pt := ptf
    x := r.x
    y := r.y
    z := r.z
    t := r.t
    px := r.px * bgf / bgi
    py := r.py * bgf / bgi
    pz := r.pz * bgf / bgi }

/-- C8: the ShortRF reference map changes `pt` by exactly the on-crest
closed-form amount `−V·cos(phase·π/180)`, with no dependence on the reference
time coordinate `t`, and leaves the positions `x`, `y`, `z`, `t` unchanged. -/
theorem shortrf_refmap_on_crest (V freq phase : ℝ) (r : RefPart) :
    (ShortRF.refmap V freq phase r).pt = r.pt - V * Real.cos (phase * (Real.pi / 180)) ∧
    (ShortRF.refmap V freq phase r).x = r.x ∧
    (ShortRF.refmap V freq phase r).y = r.y ∧
    (ShortRF.refmap V freq phase r).z = r.z ∧
    (ShortRF.refmap V freq phase r).t = r.t ∧
    ∀ tq : ℝ, (ShortRF.refmap V freq phase { r with t := tq }).pt =
      (ShortRF.refmap V freq phase r).pt :=
  ⟨rfl, rfl, rfl, rfl, rfl, fun _ => rfl⟩

/-! ## CFbend (src/unnamed/part_001, CFbend.H)

The per-particle map computes the net horizontal focusing strength
`gx = k + rc⁻²` and the vertical strength `gy = -k`, takes the branch
frequency `sqrt(|strength|)`, and selects the oscillatory branch when the
strength is strictly positive, the hyperbolic branch otherwise.
-/

/-- `CFbend::operator()` from CFbend.H: horizontal/longitudinal update under
the focusing (sin/cos) or defocusing (sinh/cosh) branch on the sign of
`gx = k + rc⁻²`, vertical update on the sign of `gy = -k`; `pt` unchanged. -/
noncomputable def CFbend.pmap (ds rc k : ℝ) (nslice : ℕ) (refpart : RefPart)
    (q : PPart) : PPart :=
  let slice_ds := ds / (nslice : ℝ)
  let pt_ref := refpart.pt
  let betgam2 := pt_ref ^ 2 - 1
  let bet := Real.sqrt (betgam2 / (1 + betgam2))
  let gx := k + rc ^ (-2 : ℤ)
  let omegax := Real.sqrt |gx|
  let xplane : ℝ × ℝ × ℝ :=
    if 0 < gx then
      let sinx := Real.sin (omegax * slice_ds)
      let cosx := Real.cos (omegax * slice_ds)
      let r56 := slice_ds / betgam2 +
        (sinx - omegax * slice_ds) / (gx * omegax * bet ^ 2 * rc ^ 2)
      ⟨cosx * q.x + sinx / omegax * q.px - (1 - cosx) / (gx * bet * rc) * q.pt,
       -omegax * sinx * q.x + cosx * q.px - sinx / (omegax * bet * rc) * q.pt,
       sinx / (omegax * bet * rc) * q.x + (1 - cosx) / (gx * bet * rc) * q.px
         + q.t + r56 * q.pt⟩
    else
      let sinhx := Real.sinh (omegax * slice_ds)
      let coshx := Real.cosh (omegax * slice_ds)
      let r56 := slice_ds / betgam2 +
        (sinhx - omegax * slice_ds) / (gx * omegax * bet ^ 2 * rc ^ 2)
      ⟨coshx * q.x + sinhx / omegax * q.px - (1 - coshx) / (gx * bet * rc) * q.pt,
       omegax * sinhx * q.x + coshx * q.px - sinhx / (omegax * bet * rc) * q.pt,
       sinhx / (omegax * bet * rc) * q.x + (1 - coshx) / (gx * bet * rc) * q.px
         + q.t + r56 * q.pt⟩
  let gy := -k
  let omegay := Real.sqrt |gy|
  let yplane : ℝ × ℝ :=
    if 0 < gy then
      let siny := Real.sin (omegay * slice_ds)
      let cosy := Real.cos (omegay * slice_ds)
      ⟨cosy * q.y + siny / omegay * q.py,
       -omegay * siny * q.y + cosy * q.py⟩
    else
      let sinhy := Real.sinh (omegay * slice_ds)
      let coshy := Real.cosh (omegay * slice_ds)
      ⟨coshy * q.y + sinhy / omegay * q.py,
       omegay * sinhy * q.y + coshy * q.py⟩
  { x := xplane.1
    y := yplane.1
    t := xplane.2.2
    px := xplane.2.1
    py := yplane.2
    pt := q.pt }

/-- `CFbend::operator()(RefPart&)` from CFbend.H: rigid rotation of the
reference momentum through the slice bend angle, position update, `pt`
unchanged, and `s` advanced by the slice length. -/
noncomputable def CFbend.refmap (ds rc k : ℝ) (nslice : ℕ) (r : RefPart) : RefPart :=
  let slice_ds := ds / (nslice : ℝ)
  let theta := slice_ds / rc
  let B := Real.sqrt (r.pt ^ 2 - 1) / rc
  let sin_theta := Real.sin theta
  let cos_theta := Real.cos theta
  let pxf := r.px * cos_theta - r.pz * sin_theta
  let pzf := r.pz * cos_theta + r.px * sin_theta
  { r with
    px := pxf
    py := r.py
    pz := pzf
    pt := r.pt
    x := r.x + (pzf - r.pz) / B
    y := r.y + theta / B * r.py
    z := r.z - (pxf - r.px) / B
    t := r.t - theta / B * r.pt
    s := r.s + slice_ds }

/-- The denominators that the branch selected by `CFbend::operator()` divides
by: `betgam2` and `gx·omegax·bet²·rc²` (in `r56`), `omegax` (in
`sinx/omegax` resp. `sinhx/omegax`), `gx·bet·rc` and `omegax·bet·rc` (in the
position/momentum updates) for the horizontal plane — the same denominators
occur in both the oscillatory and the hyperbolic branch — and `omegay` for
the vertical plane.  The map divides by zero exactly when one of them is
zero. -/
def CFbend.zeroDenom (rc k : ℝ) (pt_ref : ℝ) : Prop :=
  let betgam2 := pt_ref ^ 2 - 1
  let bet := Real.sqrt (betgam2 / (1 + betgam2))
  let gx := k + rc ^ (-2 : ℤ)
  let omegax := Real.sqrt |gx|
  let gy := -k
  let omegay := Real.sqrt |gy|
  betgam2 = 0 ∨ omegax = 0 ∨ gx * omegax * bet ^ 2 * rc ^ 2 = 0 ∨
    gx * bet * rc = 0 ∨ omegax * bet * rc = 0 ∨ omegay = 0

/-- C1 (code evidence): the CFbend map does NOT special-case zero strength.
With rc = 1 and k = −1 the net horizontal strength `gx = k + rc⁻²` is exactly
zero, the test `gx > 0` fails so the hyperbolic branch executes, its branch
frequency `omegax = sqrt(|gx|)` is exactly zero, and that branch divides by
`omegax` — so a zero denominator is silently divided by (0/0, NaN in the
source's floating point).  Likewise with k = 0 the vertical strength
`gy = −k` is zero and the vertical hyperbolic branch divides by
`omegay = 0`. -/
theorem cfbend_zero_strength_divides_by_zero :
    ((-1 : ℝ) + (1 : ℝ) ^ (-2 : ℤ) = 0) ∧
    ¬ (0 < (-1 : ℝ) + (1 : ℝ) ^ (-2 : ℤ)) ∧
    Real.sqrt |(-1 : ℝ) + (1 : ℝ) ^ (-2 : ℤ)| = 0 ∧
    CFbend.zeroDenom 1 (-1) 2 ∧
    CFbend.zeroDenom 1 0 2 := by
  have h0 : (-1 : ℝ) + (1 : ℝ) ^ (-2 : ℤ) = 0 := by norm_num
  have hsq : Real.sqrt |(-1 : ℝ) + (1 : ℝ) ^ (-2 : ℤ)| = 0 := by
    rw [h0, abs_zero, Real.sqrt_zero]
  refine ⟨h0, by rw [h0]; exact lt_irrefl 0, hsq, ?_, ?_⟩
  · unfold CFbend.zeroDenom
    exact Or.inr (Or.inl hsq)
  · unfold CFbend.zeroDenom
    refine Or.inr (Or.inr (Or.inr (Or.inr (Or.inr ?_))))
    rw [neg_zero, abs_zero, Real.sqrt_zero]

/-! ## ExactSbend (src/src/particles/elements/ExactSbend.H) -/

/-- `ExactSbend::operator()` from ExactSbend.H, with the source's unchecked
square roots embedded through `checkedSqrt`: the map fails (`none`) exactly
where the source would take the square root of a negative argument. -/
noncomputable def ExactSbend.pmap (ds phi B : ℝ) (nslice : ℕ) (refpart : RefPart)
    (q : PPart) : Option PPart :=
  let slice_phi := phi / (nslice : ℝ)
  let bet := refpart.beta
  let rc := if B ≠ 0 then refpart.rigidity_Tm / B else ds / phi
  (checkedSqrt (q.pt ^ 2 - 2 / bet * q.pt - q.py ^ 2 + 1)).bind fun pperp =>
    (checkedSqrt (pperp ^ 2 - q.px ^ 2)).bind fun pzi =>
      let rho := rc + q.x
      let sin_phi := Real.sin slice_phi
      let cos_phi := Real.cos slice_phi
      let pxout := q.px * cos_phi + (pzi - rho / rc) * sin_phi
      (checkedSqrt (pperp ^ 2 - pxout ^ 2)).map fun pzf =>
        let theta := slice_phi + Real.arcsin (q.px / pperp) - Real.arcsin (pxout / pperp)
        { x := -rc + rho * cos_phi + rc * (pzf + q.px * sin_phi - pzi * cos_phi)
          y := q.y + theta * rc * q.py
          t := q.t - theta * rc * (q.pt - 1 / bet) - phi * rc / bet
          px := pxout
          py := q.py
          pt := q.pt }

/-- `ExactSbend::operator()(RefPart&)` from ExactSbend.H: rigid rotation of
the reference momentum through the slice angle, `pt` unchanged, `s` advanced
by the slice length. -/
noncomputable def ExactSbend.refmap (ds phi B : ℝ) (nslice : ℕ) (r : RefPart) : RefPart :=
  let slice_ds := ds / (nslice : ℝ)
  let theta := phi / (nslice : ℝ)
  let rc := if B ≠ 0 then r.rigidity_Tm / B else ds / phi
  let Bf := r.beta_gamma / rc
  let sin_theta := Real.sin theta
  let cos_theta := Real.cos theta
  let pxf := r.px * cos_theta - r.pz * sin_theta
  let pzf := r.pz * cos_theta + r.px * sin_theta
  { r with
    px := pxf
    py := r.py
    pz := pzf
    pt := r.pt
    x := r.x + (pzf - r.pz) / Bf
    y := r.y + theta / Bf * r.py
    z := r.z - (pxf - r.px) / Bf
    t := r.t - theta / Bf * r.pt
    s := r.s + slice_ds }

/-- C3: there is a momentum input (px, py, pt) and a reference particle with
β strictly between 0 and 1 for which the argument `pt² − 2pt/β − py² + 1` of
the exact-bend square root is negative, and the map — which performs no
input-range validation — hits the error branch of the checked square root. -/
theorem exactsbend_sqrt_domain_reachable :
    ∃ (pxv pyv ptv : ℝ) (r : RefPart),
      0 < r.beta ∧ r.beta < 1 ∧
      ptv ^ 2 - 2 / r.beta * ptv - pyv ^ 2 + 1 < 0 ∧
      ExactSbend.pmap 1 1 0 1 r ⟨0, 0, 0, pxv, pyv, ptv⟩ = none := by
  refine ⟨0, 2, 0, ⟨0, 0, 0, 0, 0, 0, 0, 2, 0, 1, 1, 1⟩, ?_, ?_, ?_, ?_⟩
  · rw [RefPart.beta]
    exact Real.sqrt_pos.mpr (by norm_num)
  · rw [RefPart.beta]
    rw [show ((2 : ℝ) ^ 2 - 1) / (1 + ((2 : ℝ) ^ 2 - 1)) = 3 / 4 by norm_num]
    calc Real.sqrt (3 / 4) < Real.sqrt 1 := by
          apply Real.sqrt_lt_sqrt (by norm_num) (by norm_num)
      _ = 1 := Real.sqrt_one
  · rw [mul_zero]
    norm_num
  · simp only [ExactSbend.pmap, checkedSqrt]
    rw [if_neg]
    · rfl
    · rw [mul_zero]
      norm_num

/-- Iterating a reference map that adds a fixed increment to the path length
adds the increment once per application. -/
theorem refmap_iterate_s (f : RefPart → RefPart) (c : ℝ)
    (hf : ∀ r : RefPart, (f r).s = r.s + c) :
    ∀ (n : ℕ) (r : RefPart), (f^[n] r).s = r.s + n * c := by
  intro n
  induction n with
  | zero => intro r; simp
  | succ m ih =>
      intro r
      rw [Function.iterate_succ_apply, ih, hf]
      push_cast
      ring

/-- C4: each application of the ExactSbend or CFbend reference map increases
the path length `s` by exactly `ds / nslice`, and iterating it `nslice ≥ 1`
times increases `s` by exactly the total element length `ds`, independent of
`nslice`. -/
theorem thick_refmap_path_length (ds phi B rc k : ℝ) (nslice : ℕ) (r : RefPart)
    (hn : 1 ≤ nslice) :
    (ExactSbend.refmap ds phi B nslice r).s = r.s + ds / (nslice : ℝ) ∧
    ((ExactSbend.refmap ds phi B nslice)^[nslice] r).s = r.s + ds ∧
    (CFbend.refmap ds rc k nslice r).s = r.s + ds / (nslice : ℝ) ∧
    ((CFbend.refmap ds rc k nslice)^[nslice] r).s = r.s + ds := by
  have hcast : (nslice : ℝ) ≠ 0 := Nat.cast_ne_zero.mpr (Nat.one_le_iff_ne_zero.mp hn)
  have h1 : ∀ rr : RefPart, (ExactSbend.refmap ds phi B nslice rr).s =
      rr.s + ds / (nslice : ℝ) := fun rr => rfl
  have h2 : ∀ rr : RefPart, (CFbend.refmap ds rc k nslice rr).s =
      rr.s + ds / (nslice : ℝ) := fun rr => rfl
  refine ⟨h1 r, ?_, h2 r, ?_⟩
  · rw [refmap_iterate_s _ _ h1 nslice r, mul_comm, div_mul_cancel₀ ds hcast]
  · rw [refmap_iterate_s _ _ h2 nslice r, mul_comm, div_mul_cancel₀ ds hcast]

/-- A sample reference particle used by concrete witnesses. -/
noncomputable def refSample : RefPart :=
  ⟨0, 0, 0, 0, 0, 0, 0, 2, 0, 1, 1, 1⟩

/-- Witness for C4: a length-3 element sliced twice advances `s` by 3/2 per
slice and by 3 after both slices. -/
theorem thick_refmap_path_length_witness :
    1 ≤ 2 ∧
    ((ExactSbend.refmap 3 0 0 2 refSample).s = refSample.s + 3 / ((2 : ℕ) : ℝ) ∧
     ((ExactSbend.refmap 3 0 0 2)^[2] refSample).s = refSample.s + 3 ∧
     (CFbend.refmap 3 1 1 2 refSample).s = refSample.s + 3 / ((2 : ℕ) : ℝ) ∧
     ((CFbend.refmap 3 1 1 2)^[2] refSample).s = refSample.s + 3) :=
  ⟨by norm_num, thick_refmap_path_length 3 0 0 1 1 2 refSample (by norm_num)⟩

/-- `Option.elim True` over a bind: it suffices that every continuation value
satisfies the property. -/
theorem elim_true_bind {α β : Type} {P : β → Prop} (o : Option α) (f : α → Option β)
    (h : ∀ a : α, (f a).elim True P) : (o.bind f).elim True P := by
  cases o
  · exact trivial
  · exact h _

/-- `Option.elim True` over a map: it suffices that the function lands in the
property. -/
theorem elim_true_map {α β : Type} {P : β → Prop} (o : Option α) (g : α → β)
    (h : ∀ a : α, P (g a)) : (o.map g).elim True P := by
  cases o
  · exact trivial
  · exact h _

/-- C5: the zero-net-energy-change elements leave `pt` invariant: the CFbend
per-particle map, the CFbend reference map and the ExactSbend reference map
leave `pt` unchanged, and whenever the ExactSbend per-particle map produces a
result (its unchecked square roots succeed) that result has the input `pt`. -/
theorem bend_pt_invariant (ds rc k phi B : ℝ) (nslice : ℕ) (r : RefPart) (q : PPart) :
    (CFbend.pmap ds rc k nslice r q).pt = q.pt ∧
    (CFbend.refmap ds rc k nslice r).pt = r.pt ∧
    (ExactSbend.refmap ds phi B nslice r).pt = r.pt ∧
    (ExactSbend.pmap ds phi B nslice r q).elim True (fun o => o.pt = q.pt) := by
  refine ⟨rfl, rfl, rfl, ?_⟩
  simp only [ExactSbend.pmap]
  exact elim_true_bind _ _ fun pperp =>
    elim_true_bind _ _ fun pzi =>
      elim_true_map _ _ fun pzf => rfl
